import Mathlib

/-!
Shallow embedding of the GEPA prompt-optimization core of TheraLoop
(`theraloop/optim/gepa_pipeline.py`, `theraloop/optim/pareto.py`,
`theraloop/metrics/exact.py`, `theraloop/metrics/grounding.py`,
`theraloop/metrics/logprob.py`, `theraloop/metrics/util.py`,
`theraloop/monitor/mlflow_log.py`).

Modelling conventions:
* Python floats are modelled as rationals (`ℚ`); every arithmetic operation
  performed by the pipeline (sums, division by an example count, comparison)
  is exact on the values the claims exercise.
* Python `dict.get(key, default)` on optional fields is modelled by `Option`
  fields together with `Option.getD`.
* A `call_fn` / `reflect_fn` callable is modelled as a Lean function; the
  generation-observer hook (`log_gepa_step`, which performs `mlflow.log_metric`
  calls and may raise) is modelled as a function into `Except Unit Unit`:
  `Except.error ()` models a raised exception, which propagates through the
  run exactly as a Python exception would (the source wraps the call in no
  `try`/`except`).
-/

set_option linter.unusedVariables false

namespace TheraLoop

/-- A 3-objective score `(exact, grounding, confidence)` as produced by
`GEPA._score_prompt` (a Python 3-tuple of floats). -/
abbrev Score := ℚ × ℚ × ℚ

/-- Default score used to totalize list indexing / `Option` projections that
the Python code performs only in states where the value is present. -/
def d0 : Score := (0, 0, 0)

/-- The components of a score tuple, in order — used to mirror the
`zip`-based iteration of `pareto.dominates` over Python tuples. -/
def Score.toList (s : Score) : List ℚ := [s.1, s.2.1, s.2.2]

/-- `pareto.dominates`:
`all(x >= y for x, y in zip(a, b)) and any(x > y for x, y in zip(a, b))`. -/
def dominates (a b : Score) : Bool :=
  ((Score.toList a).zip (Score.toList b)).all (fun xy => decide (xy.2 ≤ xy.1)) &&
  ((Score.toList a).zip (Score.toList b)).any (fun xy => decide (xy.2 < xy.1))

/-- `pareto.pareto_front`: indices `i` such that no other index `j` has
`dominates(points[j], points[i])`.  The source iterates
`for i, p in enumerate(points)` with `p = points[i]`; we iterate the same
index range directly. -/
def pareto_front (points : List Score) : List Nat :=
  (List.range points.length).filter fun i =>
    !((List.range points.length).any fun j =>
      (j != i) && dominates (points.getD j d0) (points.getD i d0))

/-- An evaluation example: a Python dict with keys
`query`, `gold`, `sources`, `negatives`, each possibly missing. -/
structure Example where
  query : String
  gold : Option String
  sources : Option String
  negatives : Option (List String)
deriving DecidableEq

/-- The dict returned by `call_fn`: `out.get("text", "")` and
`out.get("token_logprobs", [])` are modelled by the `Option` wrappers.
A `none` entry inside `token_logprobs` models a value on which Python's
`float(v)` raises (swallowed by `safe_sum`). -/
structure ModelOut where
  text : Option String
  token_logprobs : Option (List (Option ℚ))
deriving DecidableEq

/-- One entry of the trace built by `GEPA._score_prompt`:
`{"ex": e, "out": o}`. -/
structure TraceCase where
  ex : Example
  out : ModelOut
deriving DecidableEq

/-- The trace dict `{"cases": [...]}` attached to a scored candidate. -/
structure Trace where
  cases : List TraceCase
deriving DecidableEq

/-- A pool entry `{"prompt": ..., "score": ..., "trace": ...}`;
`score is None` (lazy scoring) is `Option.none`. -/
structure Candidate where
  prompt : String
  score : Option Score
  trace : Option Trace
deriving DecidableEq

/-- Python `s.strip()`: remove leading and trailing whitespace
(modelled structurally on the character list so that it evaluates). -/
def pyStrip (s : String) : String :=
  ⟨((s.data.dropWhile Char.isWhitespace).reverse.dropWhile Char.isWhitespace).reverse⟩

/-- Python `s.lower()` (ASCII case folding, as the metrics use it). -/
def pyLower (s : String) : String :=
  ⟨s.data.map Char.toLower⟩

/-- `metrics/exact.py` `exact_match`: `1.0` iff the stripped prediction
equals the stripped gold, else `0.0`  (`(pred or "").strip()` equals
`pred.strip()` for every string argument, which is how the pipeline calls it). -/
def exact_match (pred gold : String) : ℚ :=
  if pyStrip pred = pyStrip gold then 1 else 0

/-- `needle` is a prefix of `haystack` (on character lists). -/
def listPrefixOf : List Char → List Char → Bool
  | [], _ => true
  | _ :: _, [] => false
  | a :: as, b :: bs => a == b && listPrefixOf as bs

/-- Python's substring test `needle in hay`. -/
def strContainsSub (hay needle : String) : Bool :=
  (List.range (hay.toList.length + 1)).any fun i =>
    listPrefixOf needle.toList (hay.toList.drop i)

/-- Worker for Python `s.split()`: accumulate the current token (reversed)
and cut at whitespace, dropping empty pieces. -/
def splitWsGo : List Char → List Char → List String
  | [], acc => if acc.isEmpty then [] else [⟨acc.reverse⟩]
  | c :: rest, acc =>
    if c.isWhitespace then
      if acc.isEmpty then splitWsGo rest []
      else ⟨acc.reverse⟩ :: splitWsGo rest []
    else splitWsGo rest (c :: acc)

/-- Python `s.split()` with no argument: split on whitespace runs,
dropping empty pieces. -/
def pySplitWs (s : String) : List String :=
  splitWsGo s.data []

/-- `metrics/grounding.py` `grounding_score`: lexical-overlap proxy.
`set(src_l.split())` is modelled by `List.eraseDups` of the split (the
iteration order of the Python set does not matter: only the number of
unique tokens contained in `pred_l` is used). -/
def grounding_score (pred sources : String) : ℚ :=
  let pred_l := pyLower pred
  let src_l := pyLower sources
  if src_l = "" then 0
  else
    let uniq := (pySplitWs src_l).eraseDups
    let hits := (uniq.filter fun t => (t != "") && strContainsSub pred_l t).length
    let denom := max 1 uniq.length
    (hits : ℚ) / (denom : ℚ)

/-- `metrics/util.py` `safe_sum`: sums the entries on which `float(v)`
succeeds (a failing entry is a `none` and contributes nothing);
a `None` list (`xs or []`) contributes `0.0`. -/
def safe_sum (xs : Option (List (Option ℚ))) : ℚ :=
  (xs.getD []).foldl (fun s v => match v with | some x => s + x | none => s) 0

/-- `metrics/logprob.py` `logprob_metric`.  The `penalty` term is the
source's permanent `0.0` placeholder; the `bonus` fires only when a
`scorer_fn` is supplied and the example has a `gold` key (`"gold" in inputs`).
The pipeline itself never passes a `scorer_fn`. -/
def logprob_metric (pred_text : String) (token_logprobs : List (Option ℚ))
    (inputs : Example) (negatives : Option (List String))
    (scorer_fn : Option (String → String → ℚ)) : ℚ :=
  let lp := safe_sum (some token_logprobs)
  let penalty : ℚ := 0
  let bonus : ℚ :=
    match scorer_fn, inputs.gold with
    | some f, some g => 5/100 * f pred_text g
    | _, _ => 0
  lp + bonus - 1/2 * penalty

/-- The effective configuration produced by `GEPA.__init__`
(after the `max` clamps and the `cap_pool or (self.pop * 2)` default). -/
structure GEPA where
  eval_set : List Example
  pop : Int
  children : Int
  generations : Int
  cap_pool : Int

/-- `GEPA.__init__`: clamps `pop`, `children`, `generations` and resolves
the `cap_pool or (self.pop * 2)` default (Python treats both `None` and `0`
as unset). -/
def GEPA.init (eval_set : List Example) (pop children generations : Int)
    (cap_pool : Option Int) : GEPA :=
  let p := max 1 pop
  { eval_set := eval_set
    pop := p
    children := max 0 children
    generations := max 1 generations
    cap_pool :=
      match cap_pool with
      | none => p * 2
      | some c => if c = 0 then p * 2 else c }

/-- `GEPA._score_prompt`: evaluate one prompt on every example, average the
three metrics (denominator `max(1, len(results))`), and collect the trace. -/
def GEPA.scorePrompt (G : GEPA) (call_fn : String → Example → ModelOut)
    (prompt : String) : Score × Trace :=
  let results := G.eval_set.map fun ex =>
    let out := call_fn prompt ex
    let em := exact_match (out.text.getD "") (ex.gold.getD "")
    let grd := grounding_score (out.text.getD "") (ex.sources.getD "")
    let lp := logprob_metric (out.text.getD "") (out.token_logprobs.getD [])
                ex ex.negatives none
    (em, grd, lp, out)
  let n : ℕ := max 1 results.length
  let avg : Score :=
    ((results.map fun r => r.1).sum / (n : ℚ),
     (results.map fun r => r.2.1).sum / (n : ℚ),
     (results.map fun r => r.2.2.1).sum / (n : ℚ))
  let traces : Trace :=
    ⟨(G.eval_set.zip results).map fun p => ⟨p.1, p.2.2.2.2⟩⟩
  (avg, traces)

/-- `GEPA._score_pending`: score every pool item whose `score` is `None`
(the source mutates in place; we map). -/
def GEPA.scorePending (G : GEPA) (call_fn : String → Example → ModelOut)
    (pool : List Candidate) : List Candidate :=
  pool.map fun p =>
    match p.score with
    | none =>
      let st := G.scorePrompt call_fn p.prompt
      { p with score := some st.1, trace := some st.2 }
    | some _ => p

/-- The first-occurrence deduplication scan of `GEPA._dedupe_and_cap`
(`seen` set of prompt strings, keep a candidate iff its prompt is new). -/
def dedupAux (seen : List String) : List Candidate → List Candidate
  | [] => []
  | p :: rest =>
    if seen.contains p.prompt then dedupAux seen rest
    else p :: dedupAux (p.prompt :: seen) rest

/-- Deduplicate a pool by prompt, keeping first occurrences. -/
def pyDedup (pool : List Candidate) : List Candidate := dedupAux [] pool

/-- Python slicing `xs[:n]`, including the negative-`n` case
(`xs[:n] = xs[:max(0, len(xs)+n)]` for `n < 0`); always a `take`. -/
def pySlice (xs : List α) (n : Int) : List α :=
  xs.take (if 0 ≤ n then n.toNat else xs.length - (-n).toNat)

/-- `GEPA._dedupe_and_cap`: dedupe by prompt (first occurrence wins), then
stable-sort by the key `(x["score"] is None,)` — Python's sort is stable, so
on a Boolean key this is exactly the stable partition putting scored entries
first — then truncate to `cap_pool`. -/
def dedupeAndCap (cap : Int) (pool : List Candidate) : List Candidate :=
  let deduped := pyDedup pool
  let sorted := deduped.filter (fun p => p.score.isSome) ++
                deduped.filter (fun p => !p.score.isSome)
  pySlice sorted cap

/-- The champion key `(p["score"][0], p["score"][1], p["score"][2])`.
Indexing a `None` score would raise in Python; `run` only evaluates the key
after its score-pending safety net, where every score is present. -/
def scoreKey (p : Candidate) : Score := p.score.getD d0

/-- Python tuple comparison `key(y) > key(best)` on 3-tuples:
lexicographic strict greater-than. -/
def scoreGt (a b : Score) : Bool :=
  decide (b.1 < a.1) ||
  (a.1 == b.1 && (decide (b.2.1 < a.2.1) ||
    (a.2.1 == b.2.1 && decide (b.2.2 < a.2.2))))

/-- Python `max(pool, key=...)`: first element with maximal key;
`none` models the `ValueError` raised on an empty sequence. -/
def champion (pool : List Candidate) : Option Candidate :=
  match pool with
  | [] => none
  | x :: xs =>
    some (xs.foldl (fun best y =>
      if scoreGt (scoreKey y) (scoreKey best) then y else best) x)

/-- Steps 1–2 of a `GEPA.run` loop iteration: score everything pending,
then select the Pareto-front candidates
(`parents = [self.pool[i] for i in front_idx]`). -/
def stepParents (G : GEPA) (call_fn : String → Example → ModelOut)
    (pool : List Candidate) : List Candidate :=
  let pool := G.scorePending call_fn pool
  let scores := pool.map scoreKey
  let front_idx := pareto_front scores
  front_idx.filterMap fun i => pool[i]?

/-- Step 4's child generation: for each parent, up to `children` reflected
mutations become fresh unscored candidates (`muts[:children]`). -/
def stepKids (G : GEPA) (reflect_fn : String → Option Trace → List String)
    (parents : List Candidate) : List Candidate :=
  parents.foldl (fun acc par =>
    acc ++ ((reflect_fn par.prompt par.trace).take G.children.toNat).map
      fun m => ({ prompt := m, score := none, trace := none } : Candidate)) []

/-- One iteration of the `for g in range(self.generations)` loop of
`GEPA.run`: score pending, select the Pareto front as parents, invoke the
generation-observer hook (whose exception propagates), then either reseed
with reflected children or keep only the parents; both branches end with
`_dedupe_and_cap`. -/
def GEPA.step (G : GEPA) (call_fn : String → Example → ModelOut)
    (reflect_fn : String → Option Trace → List String)
    (hook : Nat → List Candidate → Except Unit Unit)
    (g : Nat) (pool : List Candidate) : Except Unit (List Candidate) :=
  let parents := stepParents G call_fn pool
  match hook g parents with
  | Except.error e => Except.error e
  | Except.ok _ =>
    if (g : Int) < G.generations - 1 ∧ 0 < G.children then
      Except.ok (dedupeAndCap G.cap_pool (parents ++ stepKids G reflect_fn parents))
    else
      Except.ok (dedupeAndCap G.cap_pool parents)

/-- The generation loop of `GEPA.run`, starting from the seed-only pool. -/
def GEPA.runPool (G : GEPA) (call_fn : String → Example → ModelOut)
    (reflect_fn : String → Option Trace → List String)
    (hook : Nat → List Candidate → Except Unit Unit)
    (seed : String) : Except Unit (List Candidate) :=
  (List.range G.generations.toNat).foldlM
    (fun pool g => G.step call_fn reflect_fn hook g pool)
    [{ prompt := seed, score := none, trace := none }]

/-- `GEPA.run`, returning the champion Candidate (so that its attached score
is observable); the source returns `champ["prompt"]` — see `GEPA.runPrompt`.
`none` models the `ValueError` of `max` on an empty final pool. -/
def GEPA.run (G : GEPA) (call_fn : String → Example → ModelOut)
    (reflect_fn : String → Option Trace → List String)
    (hook : Nat → List Candidate → Except Unit Unit)
    (seed : String) : Except Unit (Option Candidate) :=
  match G.runPool call_fn reflect_fn hook seed with
  | Except.error e => Except.error e
  | Except.ok pool => Except.ok (champion (G.scorePending call_fn pool))

/-- The string actually returned by `GEPA.run` (`champ["prompt"]`). -/
def GEPA.runPrompt (G : GEPA) (call_fn : String → Example → ModelOut)
    (reflect_fn : String → Option Trace → List String)
    (hook : Nat → List Candidate → Except Unit Unit)
    (seed : String) : Except Unit (Option String) :=
  (G.run call_fn reflect_fn hook seed).map fun oc => oc.map Candidate.prompt

/-- A generation-observer hook that never raises (models a telemetry
callback whose `mlflow` calls all succeed, or an absent hook). -/
def okHook : Nat → List Candidate → Except Unit Unit := fun _ _ => Except.ok ()

/-- A generation-observer hook that raises on every invocation
(models `log_gepa_step` failing, e.g. `mlflow.log_metric` raising). -/
def errHook : Nat → List Candidate → Except Unit Unit := fun _ _ => Except.error ()

/-- The evaluation example of the spec's end-to-end scenario:
`{query: "2+2?", gold: "4"}`. -/
def ex1 : Example := ⟨"2+2?", some "4", none, none⟩

/-- The `call_fn` of the end-to-end scenario: always returns
`{text: "4", token_logprobs: [-0.1]}`. -/
def call1 : String → Example → ModelOut := fun _ _ => ⟨some "4", some [some (-1/10)]⟩

/-- The `reflect_fn` of the end-to-end scenario: always returns `[]`. -/
def reflect0 : String → Option Trace → List String := fun _ _ => []

/-! ### Order-theoretic helper lemmas -/

/-- Unfolding of `dominates` into its componentwise characterisation. -/
lemma dominates_eq_true_iff (a b : Score) :
    dominates a b = true ↔
      (b.1 ≤ a.1 ∧ b.2.1 ≤ a.2.1 ∧ b.2.2 ≤ a.2.2) ∧
      (b.1 < a.1 ∨ b.2.1 < a.2.1 ∨ b.2.2 < a.2.2) := by
  obtain ⟨a1, a2, a3⟩ := a
  obtain ⟨b1, b2, b3⟩ := b
  simp [dominates, Score.toList]

/-- A score never dominates itself (the strict clause fails). -/
lemma dominates_self (a : Score) : dominates a a = false := by
  rw [Bool.eq_false_iff]
  intro h
  rcases (dominates_eq_true_iff a a).mp h with ⟨-, h2⟩
  rcases h2 with h | h | h <;> exact lt_irrefl _ h

/-- The lexicographic key corresponding to Python's tuple comparison of a
3-tuple of floats. -/
def sKey (s : Score) : Lex (ℚ × Lex (ℚ × ℚ)) := toLex (s.1, toLex (s.2.1, s.2.2))

/-- Unfolding of the lexicographic order on `sKey`. -/
lemma sKey_lt_iff (a b : Score) :
    sKey a < sKey b ↔
      a.1 < b.1 ∨ (a.1 = b.1 ∧ (a.2.1 < b.2.1 ∨ (a.2.1 = b.2.1 ∧ a.2.2 < b.2.2))) := by
  simp [sKey, Prod.Lex.lt_iff]

/-- `scoreGt` is exactly the strict lexicographic order on `sKey`. -/
lemma scoreGt_iff (a b : Score) : scoreGt a b = true ↔ sKey b < sKey a := by
  simp only [scoreGt, sKey_lt_iff, Bool.or_eq_true, Bool.and_eq_true,
    decide_eq_true_eq, beq_iff_eq]
  constructor
  · rintro (h | ⟨h1, h2 | ⟨h2, h3⟩⟩)
    · exact Or.inl h
    · exact Or.inr ⟨h1.symm, Or.inl h2⟩
    · exact Or.inr ⟨h1.symm, Or.inr ⟨h2.symm, h3⟩⟩
  · rintro (h | ⟨h1, h2 | ⟨h2, h3⟩⟩)
    · exact Or.inl h
    · exact Or.inr ⟨h1.symm, Or.inl h2⟩
    · exact Or.inr ⟨h1.symm, Or.inr ⟨h2.symm, h3⟩⟩

/-- Domination implies strict lexicographic improvement. -/
lemma sKey_lt_of_dominates {a b : Score} (h : dominates a b = true) :
    sKey b < sKey a := by
  rcases (dominates_eq_true_iff a b).mp h with ⟨⟨h1, h2, h3⟩, hs⟩
  rw [sKey_lt_iff]
  rcases lt_or_eq_of_le h1 with h1' | h1'
  · exact Or.inl h1'
  · refine Or.inr ⟨h1', ?_⟩
    rcases lt_or_eq_of_le h2 with h2' | h2'
    · exact Or.inl h2'
    · refine Or.inr ⟨h2', ?_⟩
      rcases lt_or_eq_of_le h3 with h3' | h3'
      · exact h3'
      · exfalso; rcases hs with h | h | h <;> simp_all

/-- Membership in the Pareto front: in range, and dominated by no other index. -/
lemma mem_pareto_front_iff {points : List Score} {i : ℕ} :
    i ∈ pareto_front points ↔
      i < points.length ∧ ∀ j, j < points.length → j ≠ i →
        dominates (points.getD j d0) (points.getD i d0) = false := by
  unfold pareto_front
  rw [List.mem_filter, List.mem_range]
  constructor
  · rintro ⟨hi, hp⟩
    refine ⟨hi, fun j hj hne => ?_⟩
    by_contra hdom
    have hdom' : dominates (points.getD j d0) (points.getD i d0) = true := by
      cases hb : dominates (points.getD j d0) (points.getD i d0)
      · exact absurd hb hdom
      · rfl
    have hany : ((List.range points.length).any fun j =>
        (j != i) && dominates (points.getD j d0) (points.getD i d0)) = true := by
      rw [List.any_eq_true]
      exact ⟨j, List.mem_range.mpr hj,
        by rw [Bool.and_eq_true, bne_iff_ne]; exact ⟨hne, hdom'⟩⟩
    rw [hany] at hp
    simp at hp
  · rintro ⟨hi, hall⟩
    refine ⟨hi, ?_⟩
    rw [Bool.not_eq_true']
    rw [List.any_eq_false]
    intro j hjm
    by_cases hji : j = i
    · subst hji
      rw [bne_self_eq_false, Bool.false_and]
      exact Bool.false_ne_true
    · intro hx
      rw [Bool.and_eq_true] at hx
      obtain ⟨-, hd⟩ := hx
      rw [hall j (List.mem_range.mp hjm) hji] at hd
      exact Bool.false_ne_true hd

/-- Every non-empty list of scores has a lexicographically maximal element. -/
lemma exists_sKey_max : ∀ (l : List Score), l ≠ [] → ∃ m ∈ l, ∀ x ∈ l, sKey x ≤ sKey m := by
  intro l
  induction l with
  | nil => intro h; exact absurd rfl h
  | cons a t ih =>
    intro _
    cases t with
    | nil => exact ⟨a, by simp, by simp⟩
    | cons b u =>
      obtain ⟨m, hm, hmax⟩ := ih (by simp)
      rcases le_total (sKey a) (sKey m) with h | h
      · refine ⟨m, List.mem_cons_of_mem a hm, fun x hx => ?_⟩
        rcases List.mem_cons.mp hx with rfl | hx
        · exact h
        · exact hmax x hx
      · refine ⟨a, List.mem_cons_self a _, fun x hx => ?_⟩
        rcases List.mem_cons.mp hx with rfl | hx
        · exact le_rfl
        · exact (hmax x hx).trans h

/-- A non-empty score list has a non-empty Pareto front (witnessed by a
lexicographically maximal element). -/
lemma pareto_front_ne_nil {points : List Score} (h : points ≠ []) :
    pareto_front points ≠ [] := by
  obtain ⟨m, hm, hmax⟩ := exists_sKey_max points h
  obtain ⟨i, hi, hgi⟩ := List.mem_iff_getElem.mp hm
  have hifront : i ∈ pareto_front points := by
    rw [mem_pareto_front_iff]
    refine ⟨hi, fun j hj hne => ?_⟩
    by_contra hdom
    have hdom' : dominates (points.getD j d0) (points.getD i d0) = true := by
      cases hb : dominates (points.getD j d0) (points.getD i d0)
      · exact absurd hb hdom
      · rfl
    have hlt := sKey_lt_of_dominates hdom'
    have hgetj : points.getD j d0 ∈ points := by
      rw [List.getD_eq_getElem points d0 hj]
      exact List.getElem_mem hj
    have hgeti : points.getD i d0 = m := by
      rw [List.getD_eq_getElem points d0 hi, hgi]
    rw [hgeti] at hlt
    exact absurd hlt (not_lt.mpr (hmax _ hgetj))
  intro hnil
  rw [hnil] at hifront
  exact absurd hifront (List.not_mem_nil i)
/-! ### Claim theorems -/

/-- C4: for all 3-component score tuples `a` and `b`, `dominates a b` holds
iff every component of `a` is ≥ the corresponding component of `b` and at
least one component is strictly greater; in particular `dominates a a` is
false for every tuple `a`. -/
theorem dominates_correct (a b : Score) :
    (dominates a b = true ↔
      (b.1 ≤ a.1 ∧ b.2.1 ≤ a.2.1 ∧ b.2.2 ≤ a.2.2) ∧
      (b.1 < a.1 ∨ b.2.1 < a.2.1 ∨ b.2.2 < a.2.2)) ∧
    dominates a a = false :=
  ⟨dominates_eq_true_iff a b, dominates_self a⟩

/-- Witness for C4 at the concrete tuples `(1,1,1)` and `(0,0,0)`. -/
theorem dominates_correct_witness :
    (dominates ((1:ℚ),1,1) ((0:ℚ),0,0) = true ↔
      (((0:ℚ) ≤ 1 ∧ (0:ℚ) ≤ 1 ∧ (0:ℚ) ≤ 1) ∧
       ((0:ℚ) < 1 ∨ (0:ℚ) < 1 ∨ (0:ℚ) < 1))) ∧
    dominates ((1:ℚ),1,1) ((1:ℚ),1,1) = false :=
  dominates_correct ((1:ℚ),1,1) ((0:ℚ),0,0)

/-- C5: `pareto_front` returns exactly the indices dominated by no other
index; on `[(1,1,1),(0,0,0)]` the front is `[0]`, on `[(1,0,0),(0,1,0)]`
it is `[0,1]`, and on any list of identical tuples it is every index. -/
theorem pareto_front_correct :
    (∀ (points : List Score) (i : ℕ),
        i ∈ pareto_front points ↔
          i < points.length ∧ ∀ j, j < points.length → j ≠ i →
            dominates (points.getD j d0) (points.getD i d0) = false) ∧
    pareto_front [((1:ℚ),1,1), ((0:ℚ),0,0)] = [0] ∧
    pareto_front [((1:ℚ),0,0), ((0:ℚ),1,0)] = [0, 1] ∧
    (∀ (s : Score) (n : ℕ), pareto_front (List.replicate n s) = List.range n) := by
  refine ⟨fun points i => mem_pareto_front_iff, by decide, by decide, fun s n => ?_⟩
  unfold pareto_front
  rw [List.length_replicate]
  apply List.filter_eq_self.mpr
  intro i hi
  have hi' : i < n := List.mem_range.mp hi
  rw [Bool.not_eq_true', List.any_eq_false]
  intro j hjm
  intro hx
  rw [Bool.and_eq_true] at hx
  obtain ⟨-, hd⟩ := hx
  have hj : j < n := List.mem_range.mp hjm
  rw [List.getD_eq_getElem _ _ (by rw [List.length_replicate]; exact hj),
      List.getD_eq_getElem _ _ (by rw [List.length_replicate]; exact hi'),
      List.getElem_replicate, List.getElem_replicate, dominates_self] at hd
  exact Bool.false_ne_true hd

/-- Witness for C5 at `points = [(1,1,1),(0,0,0)]`, `i = 0`. -/
theorem pareto_front_correct_witness :
    0 ∈ pareto_front [((1:ℚ),1,1), ((0:ℚ),0,0)] ↔
      0 < ([((1:ℚ),1,1), ((0:ℚ),0,0)] : List Score).length ∧
      ∀ j, j < ([((1:ℚ),1,1), ((0:ℚ),0,0)] : List Score).length → j ≠ 0 →
        dominates (([((1:ℚ),1,1), ((0:ℚ),0,0)] : List Score).getD j d0)
          (([((1:ℚ),1,1), ((0:ℚ),0,0)] : List Score).getD 0 d0) = false :=
  pareto_front_correct.1 [((1:ℚ),1,1), ((0:ℚ),0,0)] 0

/-- C2 counterexample: with empty (or missing, which the pipeline maps to
empty) gold and an empty prediction, `exact_match` returns `1.0`, not the
claimed `0.0`. -/
theorem exact_match_empty_gold_cex :
    exact_match "" "" = 1 ∧ ¬ exact_match "" "" = 0 := by
  constructor
  · decide
  · decide

/-- C2 amended: `exact_match` returns `1.0` iff the stripped prediction
equals the stripped gold and `0.0` otherwise; when gold strips to empty the
result is `0.0` unless the prediction also strips to empty, in which case it
is `1.0`. -/
theorem exact_match_correct (pred gold : String) :
    exact_match pred gold = (if pyStrip pred = pyStrip gold then 1 else 0) ∧
    (pyStrip gold = "" → pyStrip pred ≠ "" → exact_match pred gold = 0) ∧
    (pyStrip gold = "" → pyStrip pred = "" → exact_match pred gold = 1) := by
  refine ⟨rfl, fun hg hp => ?_, fun hg hp => ?_⟩
  · unfold exact_match
    rw [if_neg]
    intro he
    exact hp (he.trans hg)
  · unfold exact_match
    rw [if_pos (hp.trans hg.symm)]

/-- Witness for C2's amended claim at `pred = "x"`, `gold = ""`. -/
theorem exact_match_correct_witness : exact_match "x" "" = 0 :=
  (exact_match_correct "x" "").2.1 (by decide) (by decide)

/-- C10: `GEPA.__init__` clamps the configuration — effective population
size ≥ 1, children ≥ 0, generations ≥ 1 — and a `cap_pool` argument of `0`
is treated like `None` and replaced by twice the effective population size,
so the capacity used by the run is never `0`. -/
theorem gepa_init_defaults (ev : List Example) (pop children generations : Int)
    (capArg : Option Int) :
    1 ≤ (GEPA.init ev pop children generations capArg).pop ∧
    0 ≤ (GEPA.init ev pop children generations capArg).children ∧
    1 ≤ (GEPA.init ev pop children generations capArg).generations ∧
    (GEPA.init ev pop children generations capArg).cap_pool ≠ 0 ∧
    GEPA.init ev pop children generations (some 0) =
      GEPA.init ev pop children generations none ∧
    (GEPA.init ev pop children generations none).cap_pool = (max 1 pop) * 2 := by
  have hp : (1:Int) ≤ max 1 pop := le_max_left 1 pop
  refine ⟨le_max_left 1 pop, le_max_left 0 children, le_max_left 1 generations,
    ?_, rfl, rfl⟩
  unfold GEPA.init
  cases capArg with
  | none =>
    dsimp only
    omega
  | some c =>
    dsimp only
    by_cases hc : c = 0
    · rw [if_pos hc]
      omega
    · rw [if_neg hc]
      exact hc

/-- Witness for C10 at a degenerate configuration
(`pop = -5`, `children = -2`, `generations = 0`, `cap_pool = 0`). -/
theorem gepa_init_defaults_witness :
    1 ≤ (GEPA.init [] (-5) (-2) 0 (some 0)).pop ∧
    0 ≤ (GEPA.init [] (-5) (-2) 0 (some 0)).children ∧
    1 ≤ (GEPA.init [] (-5) (-2) 0 (some 0)).generations ∧
    (GEPA.init [] (-5) (-2) 0 (some 0)).cap_pool ≠ 0 ∧
    GEPA.init [] (-5) (-2) 0 (some 0) = GEPA.init [] (-5) (-2) 0 none ∧
    (GEPA.init [] (-5) (-2) 0 none).cap_pool = (max 1 (-5)) * 2 :=
  gepa_init_defaults [] (-5) (-2) 0 (some 0)

/-! ### Dedup / cap lemmas (for C6 and the pool-safety claim) -/

/-- Anything produced by the dedup scan has a prompt not in `seen` and is
the first entry of the input with its prompt. -/
lemma dedupAux_mem_found (l : List Candidate) : ∀ (seen : List String) (c : Candidate),
    c ∈ dedupAux seen l →
      seen.contains c.prompt = false ∧
      l.find? (fun p => p.prompt == c.prompt) = some c := by
  induction l with
  | nil => intro seen c h; simp [dedupAux] at h
  | cons p rest ih =>
    intro seen c h
    rw [dedupAux] at h
    by_cases hseen : seen.contains p.prompt = true
    · rw [if_pos hseen] at h
      obtain ⟨hc, hfind⟩ := ih seen c h
      have hne : (p.prompt == c.prompt) = false := by
        rw [beq_eq_false_iff_ne]
        intro he
        rw [he, hc] at hseen
        exact Bool.false_ne_true hseen
      refine ⟨hc, ?_⟩
      rw [List.find?_cons_of_neg, hfind]
      simp [hne]
    · rw [if_neg hseen] at h
      rcases List.mem_cons.mp h with rfl | h'
      · refine ⟨Bool.eq_false_iff.mpr hseen, ?_⟩
        rw [List.find?_cons_of_pos]
        simp
      · obtain ⟨hc, hfind⟩ := ih _ c h'
        rw [List.contains_cons, Bool.or_eq_false_iff] at hc
        have hpc : (p.prompt == c.prompt) = false := by
          rw [beq_eq_false_iff_ne]
          intro he
          exact (beq_eq_false_iff_ne.mp hc.1) he.symm
        refine ⟨hc.2, ?_⟩
        rw [List.find?_cons_of_neg, hfind]
        simp [hpc]

/-- The dedup scan yields pairwise-distinct prompts. -/
lemma dedupAux_nodup (l : List Candidate) :
    ∀ seen, ((dedupAux seen l).map (fun c => c.prompt)).Nodup := by
  induction l with
  | nil => intro seen; simp [dedupAux]
  | cons p rest ih =>
    intro seen
    rw [dedupAux]
    by_cases hseen : seen.contains p.prompt = true
    · rw [if_pos hseen]; exact ih seen
    · rw [if_neg hseen]
      simp only [List.map_cons, List.nodup_cons]
      refine ⟨?_, ih _⟩
      intro hmem
      obtain ⟨c, hc, hpc⟩ := List.mem_map.mp hmem
      obtain ⟨hcontains, -⟩ := dedupAux_mem_found rest _ c hc
      rw [List.contains_cons, Bool.or_eq_false_iff] at hcontains
      exact (beq_eq_false_iff_ne.mp hcontains.1) hpc

/-- Members of the capped pool come from the deduplicated pool. -/
lemma mem_pyDedup_of_mem_dedupeAndCap {cap : Int} {pool : List Candidate}
    {c : Candidate} (h : c ∈ dedupeAndCap cap pool) : c ∈ pyDedup pool := by
  simp only [dedupeAndCap, pySlice] at h
  rcases List.mem_append.mp (List.mem_of_mem_take h) with h' | h' <;>
    exact (List.mem_filter.mp h').1

/-- C6: after `_dedupe_and_cap` the pool has pairwise-distinct prompts,
at most `cap_pool` entries (for a non-negative cap), keeps only first
occurrences of each prompt, and — whenever any unscored entry survives —
every scored entry of the deduplicated pool survives too (scored entries
are preferred under truncation). -/
theorem dedupe_and_cap_correct (cap : Int) (pool : List Candidate) :
    ((dedupeAndCap cap pool).map (fun c => c.prompt)).Nodup ∧
    (0 ≤ cap → (dedupeAndCap cap pool).length ≤ cap.toNat) ∧
    (∀ c ∈ dedupeAndCap cap pool,
      pool.find? (fun p => p.prompt == c.prompt) = some c) ∧
    ((∃ u ∈ dedupeAndCap cap pool, u.score = none) →
      ∀ s ∈ pyDedup pool, s.score.isSome = true → s ∈ dedupeAndCap cap pool) := by
  refine ⟨?_, ?_, ?_, ?_⟩
  · -- distinct prompts
    have hperm : ((pyDedup pool).filter (fun p => p.score.isSome) ++
        (pyDedup pool).filter (fun p => !p.score.isSome)).Perm (pyDedup pool) :=
      List.filter_append_perm _ _
    have hnodup : (((pyDedup pool).filter (fun p => p.score.isSome) ++
        (pyDedup pool).filter (fun p => !p.score.isSome)).map
          (fun c => c.prompt)).Nodup :=
      ((hperm.map (fun c => c.prompt)).nodup_iff).mpr (dedupAux_nodup pool [])
    simp only [dedupeAndCap, pySlice]
    rw [List.map_take]
    exact hnodup.sublist (List.take_sublist _ _)
  · -- capacity
    intro hcap
    simp only [dedupeAndCap, pySlice, if_pos hcap]
    exact List.length_take_le _ _
  · -- first occurrences
    intro c hc
    exact (dedupAux_mem_found pool [] c (mem_pyDedup_of_mem_dedupeAndCap hc)).2
  · -- scored preferred over unscored
    rintro ⟨u, hu, huscore⟩ s hs hscored
    simp only [dedupeAndCap, pySlice] at hu ⊢
    set A := (pyDedup pool).filter (fun p => p.score.isSome) with hA
    set B := (pyDedup pool).filter (fun p => !p.score.isSome) with hB
    set k := (if 0 ≤ cap then cap.toNat else (A ++ B).length - (-cap).toNat) with hk
    rw [List.take_append_eq_append_take] at hu ⊢
    have huA : u ∉ A.take k := by
      intro hmem
      have := (List.mem_filter.mp (List.mem_of_mem_take hmem)).2
      rw [huscore] at this
      simp at this
    have huB : u ∈ B.take (k - A.length) := by
      rcases List.mem_append.mp hu with h' | h'
      · exact absurd h' huA
      · exact h'
    have hkpos : 0 < k - A.length := by
      rcases Nat.eq_zero_or_pos (k - A.length) with hz | hp
      · rw [hz] at huB; simp at huB
      · exact hp
    have hAk : A.take k = A := List.take_of_length_le (by omega)
    have hsA : s ∈ A := List.mem_filter.mpr ⟨hs, hscored⟩
    exact List.mem_append.mpr (Or.inl (by rw [hAk]; exact hsA))

/-- Witness for C6 at `cap = 2` and a pool with a duplicate prompt and a
mix of scored and unscored entries. -/
theorem dedupe_and_cap_correct_witness :
    ((dedupeAndCap 2 [⟨"x", none, none⟩, ⟨"y", some d0, none⟩,
        ⟨"x", some d0, none⟩, ⟨"z", none, none⟩]).map (fun c => c.prompt)).Nodup ∧
    (dedupeAndCap 2 [⟨"x", none, none⟩, ⟨"y", some d0, none⟩,
        ⟨"x", some d0, none⟩, ⟨"z", none, none⟩]).length ≤ (2:Int).toNat ∧
    (⟨"y", some d0, none⟩ : Candidate) ∈ dedupeAndCap 2 [⟨"x", none, none⟩,
        ⟨"y", some d0, none⟩, ⟨"x", some d0, none⟩, ⟨"z", none, none⟩] := by
  have h := dedupe_and_cap_correct 2 [⟨"x", none, none⟩, ⟨"y", some d0, none⟩,
    ⟨"x", some d0, none⟩, ⟨"z", none, none⟩]
  refine ⟨h.1, h.2.1 (by decide), ?_⟩
  refine h.2.2.2 ⟨⟨"x", none, none⟩, ?_, rfl⟩ ⟨"y", some d0, none⟩ (by decide) rfl
  decide

/-! ### Champion-selection lemmas -/

/-- `scoreGt` is irreflexive. -/
lemma scoreGt_self (s : Score) : scoreGt s s = false := by
  rw [Bool.eq_false_iff]
  intro h
  exact lt_irrefl _ ((scoreGt_iff s s).mp h)

/-- `scoreGt` is asymmetric. -/
lemma scoreGt_asymm {a b : Score} (h : scoreGt a b = true) : scoreGt b a = false := by
  rw [Bool.eq_false_iff]
  intro h2
  exact lt_asymm ((scoreGt_iff a b).mp h) ((scoreGt_iff b a).mp h2)

/-- The `max`-with-key fold returns the strictly greatest element. -/
lemma champFold_eq (c : Candidate) :
    ∀ (xs : List Candidate) (acc : Candidate),
      (c = acc ∨ c ∈ xs) →
      (∀ d, (d = acc ∨ d ∈ xs) → d ≠ c → scoreGt (scoreKey c) (scoreKey d) = true) →
      xs.foldl (fun best y => if scoreGt (scoreKey y) (scoreKey best) then y else best)
        acc = c := by
  intro xs
  induction xs with
  | nil =>
    intro acc hmem hgt
    rcases hmem with rfl | h
    · rfl
    · simp at h
  | cons y ys ih =>
    intro acc hmem hgt
    simp only [List.foldl_cons]
    apply ih
    · rcases hmem with rfl | hm
      · by_cases hyc : y = c
        · left
          subst hyc
          split <;> rfl
        · have hfalse := scoreGt_asymm
            (hgt y (Or.inr (List.mem_cons_self _ _)) hyc)
          left
          rw [hfalse]
          simp
      · rcases List.mem_cons.mp hm with rfl | hc2
        · by_cases hac : acc = c
          · subst hac
            left
            rw [scoreGt_self]
            simp
          · have htrue := hgt acc (Or.inl rfl) hac
            left
            rw [htrue]
            simp
        · exact Or.inr hc2
    · intro d hd hdc
      rcases hd with rfl | hd
      · refine hgt _ ?_ hdc
        split
        · exact Or.inr (List.mem_cons_self _ _)
        · exact Or.inl rfl
      · exact hgt d (Or.inr (List.mem_cons_of_mem _ hd)) hdc

/-- `champion` returns the unique strictly greatest-keyed candidate. -/
lemma champion_eq_of_strict_greatest {pool : List Candidate} {c : Candidate}
    (hc : c ∈ pool)
    (hgt : ∀ d ∈ pool, d ≠ c → scoreGt (scoreKey c) (scoreKey d) = true) :
    champion pool = some c := by
  cases pool with
  | nil => simp at hc
  | cons x xs =>
    simp only [champion]
    rw [champFold_eq c xs x ?_ ?_]
    · rcases List.mem_cons.mp hc with rfl | h
      · exact Or.inl rfl
      · exact Or.inr h
    · intro d hd hdc
      rcases hd with rfl | hd
      · exact hgt d (List.mem_cons_self _ _) hdc
      · exact hgt d (List.mem_cons_of_mem _ hd) hdc

/-- Candidate scored `(1, 0, 0)` for the champion-determinism scenario. -/
def candA : Candidate := ⟨"A", some (1, 0, 0), none⟩

/-- Candidate scored `(0, 1, 1)` for the champion-determinism scenario. -/
def candB : Candidate := ⟨"B", some (0, 1, 1), none⟩

/-- Candidate scored `(0.5, 0.5, 0.5)` for the champion-determinism scenario. -/
def candC : Candidate := ⟨"C", some (1/2, 1/2, 1/2), none⟩

unseal Rat.mul Rat.inv in
/-- C7: the champion is the pool candidate whose score tuple is
lexicographically greatest under `(exact, grounding, confidence)`; for a
pool scored `(1,0,0)`, `(0,1,1)`, `(0.5,0.5,0.5)` the champion is the
first, whatever the pool order. -/
theorem champion_lex_greatest :
    (∀ (pool : List Candidate) (c : Candidate), c ∈ pool →
      (∀ d ∈ pool, d ≠ c → scoreGt (scoreKey c) (scoreKey d) = true) →
      champion pool = some c) ∧
    (∀ pool : List Candidate, pool.Perm [candA, candB, candC] →
      champion pool = some candA) := by
  constructor
  · intro pool c hc hgt
    exact champion_eq_of_strict_greatest hc hgt
  · intro pool hperm
    apply champion_eq_of_strict_greatest
    · exact hperm.mem_iff.mpr (List.mem_cons_self _ _)
    · intro d hd hdc
      have hd3 : d = candA ∨ d = candB ∨ d = candC := by
        have := hperm.mem_iff.mp hd
        simpa using this
      rcases hd3 with rfl | rfl | rfl
      · exact absurd rfl hdc
      · decide
      · decide

/-- Witness for C7 at the pool `[candB, candA, candC]`. -/
theorem champion_lex_greatest_witness :
    champion [candB, candA, candC] = some candA :=
  champion_lex_greatest.2 [candB, candA, candC] (List.Perm.swap candA candB [candC])

unseal Rat.add Rat.sub Rat.mul Rat.inv in
/-- C1: the end-to-end scenario — seed `"Answer exactly."`, one example
`{query: "2+2?", gold: "4"}`, `call_fn` always `{text: "4",
token_logprobs: [-0.1]}`, `reflect_fn` always `[]`, `generations = 2`,
`children = 2` — returns the seed as champion with attached score
`(1.0, 0.0, -0.1)`. -/
theorem gepa_end_to_end :
    ((GEPA.init [ex1] 8 2 2 none).run call1 reflect0 okHook
        "Answer exactly.").toOption.map (Option.map fun c => (c.prompt, c.score)) =
      some (some ("Answer exactly.", some ((1 : ℚ), 0, -1/10))) := by decide

unseal Rat.add Rat.sub Rat.mul Rat.inv in
/-- C3 counterexample: with a raising generation-observer hook the run
aborts (no champion); with a non-raising hook it completes — so a raising
hook does affect the search, contrary to the claim. -/
theorem hook_failure_cex :
    ((GEPA.init [ex1] 8 2 2 none).runPrompt call1 reflect0 errHook
        "Answer exactly.").toOption = none ∧
    ((GEPA.init [ex1] 8 2 2 none).runPrompt call1 reflect0 okHook
        "Answer exactly.").toOption = some (some "Answer exactly.") := by
  constructor
  · decide
  · decide

/-- C3 amended: an exception raised by the hook propagates and aborts the
run (see `hook_failure_cex`); only for hooks that do not raise is the
search unaffected — any two non-raising hooks produce identical runs. -/
theorem hook_independence (G : GEPA) (call_fn : String → Example → ModelOut)
    (reflect_fn : String → Option Trace → List String)
    (h1 h2 : Nat → List Candidate → Except Unit Unit) (seed : String)
    (hh1 : ∀ g ps, h1 g ps = Except.ok ())
    (hh2 : ∀ g ps, h2 g ps = Except.ok ()) :
    G.run call_fn reflect_fn h1 seed = G.run call_fn reflect_fn h2 seed := by
  have he : h1 = h2 := by
    funext g ps
    rw [hh1, hh2]
  rw [he]

/-- Witness for C3's amended claim: `okHook` versus a literal non-raising
hook on the end-to-end scenario. -/
theorem hook_independence_witness :
    (GEPA.init [ex1] 8 2 2 none).run call1 reflect0 okHook "Answer exactly." =
      (GEPA.init [ex1] 8 2 2 none).run call1 reflect0
        (fun _ _ => Except.ok ()) "Answer exactly." :=
  hook_independence _ call1 reflect0 okHook (fun _ _ => Except.ok ())
    "Answer exactly." (fun _ _ => rfl) (fun _ _ => rfl)

/-! ### Pool non-emptiness through a run -/

/-- Deduplication preserves non-emptiness (the head always survives). -/
lemma pyDedup_ne_nil {pool : List Candidate} (h : pool ≠ []) : pyDedup pool ≠ [] := by
  cases pool with
  | nil => exact absurd rfl h
  | cons p rest =>
    unfold pyDedup
    rw [dedupAux, if_neg (by simp)]
    exact List.cons_ne_nil _ _

/-- `_dedupe_and_cap` preserves non-emptiness whenever the cap is ≥ 1. -/
lemma dedupeAndCap_ne_nil {cap : Int} {pool : List Candidate} (hcap : 1 ≤ cap)
    (h : pool ≠ []) : dedupeAndCap cap pool ≠ [] := by
  simp only [dedupeAndCap, pySlice]
  have hlen : ((pyDedup pool).filter (fun p => p.score.isSome) ++
      (pyDedup pool).filter (fun p => !p.score.isSome)).length =
        (pyDedup pool).length :=
    (List.filter_append_perm _ _).length_eq
  rw [if_pos (by omega : (0:Int) ≤ cap)]
  intro hnil
  have hlen0 : (List.take cap.toNat
      ((pyDedup pool).filter (fun p => p.score.isSome) ++
       (pyDedup pool).filter (fun p => !p.score.isSome))).length = 0 := by
    rw [hnil]; rfl
  rw [List.length_take, hlen] at hlen0
  have h2 : 0 < (pyDedup pool).length := List.length_pos.mpr (pyDedup_ne_nil h)
  omega

/-- The parents of a step are non-empty when the pool is (the Pareto front
of a non-empty score list is non-empty and all its indices are in range). -/
lemma stepParents_ne_nil (G : GEPA) (call_fn : String → Example → ModelOut)
    {pool : List Candidate} (h : pool ≠ []) :
    stepParents G call_fn pool ≠ [] := by
  simp only [stepParents]
  have hp'ne : G.scorePending call_fn pool ≠ [] := by
    rw [GEPA.scorePending]
    intro hnil
    exact h (List.map_eq_nil_iff.mp hnil)
  have hsne : (G.scorePending call_fn pool).map scoreKey ≠ [] := by
    intro hnil
    exact hp'ne (List.map_eq_nil_iff.mp hnil)
  cases hfe : pareto_front ((G.scorePending call_fn pool).map scoreKey) with
  | nil => exact absurd hfe (pareto_front_ne_nil hsne)
  | cons i rest =>
    have hi : i ∈ pareto_front ((G.scorePending call_fn pool).map scoreKey) := by
      rw [hfe]; exact List.mem_cons_self _ _
    have hilt : i < (G.scorePending call_fn pool).length := by
      have := (mem_pareto_front_iff.mp hi).1
      rwa [List.length_map] at this
    simp [List.filterMap_cons, List.getElem?_eq_getElem hilt]

/-- A step with a non-raising hook succeeds and keeps the pool non-empty
(for a cap ≥ 1). -/
lemma step_okHook_ne_nil (G : GEPA) (call_fn : String → Example → ModelOut)
    (reflect_fn : String → Option Trace → List String) (g : ℕ)
    {pool : List Candidate} (hpool : pool ≠ []) (hcap : 1 ≤ G.cap_pool) :
    ∃ pool', G.step call_fn reflect_fn okHook g pool = Except.ok pool' ∧
      pool' ≠ [] := by
  by_cases hb : ((g : Int) < G.generations - 1 ∧ 0 < G.children)
  · refine ⟨dedupeAndCap G.cap_pool (stepParents G call_fn pool ++
        stepKids G reflect_fn (stepParents G call_fn pool)), ?_, ?_⟩
    · simp [GEPA.step, okHook, hb]
    · apply dedupeAndCap_ne_nil hcap
      intro hnil
      exact stepParents_ne_nil G call_fn hpool (List.append_eq_nil.mp hnil).1
  · refine ⟨dedupeAndCap G.cap_pool (stepParents G call_fn pool), ?_, ?_⟩
    · simp [GEPA.step, okHook, hb]
    · exact dedupeAndCap_ne_nil hcap (stepParents_ne_nil G call_fn hpool)

/-- The generation loop with a non-raising hook succeeds and keeps the pool
non-empty. -/
lemma runLoop_ne_nil (G : GEPA) (call_fn : String → Example → ModelOut)
    (reflect_fn : String → Option Trace → List String) :
    ∀ (gs : List ℕ) (init : List Candidate), init ≠ [] → 1 ≤ G.cap_pool →
      ∃ pool, gs.foldlM (fun pool g => G.step call_fn reflect_fn okHook g pool)
          init = Except.ok pool ∧ pool ≠ [] := by
  intro gs
  induction gs with
  | nil => intro init h hcap; exact ⟨init, rfl, h⟩
  | cons g gs ih =>
    intro init h hcap
    obtain ⟨p1, hp1, hp1ne⟩ := step_okHook_ne_nil G call_fn reflect_fn g h hcap
    obtain ⟨pool, hpool, hpoolne⟩ := ih p1 hp1ne hcap
    refine ⟨pool, ?_, hpoolne⟩
    rw [List.foldlM_cons, hp1]
    exact hpool

/-- `champion` of a non-empty pool is always `some` candidate. -/
lemma champion_isSome {pool : List Candidate} (h : pool ≠ []) :
    ∃ c, champion pool = some c := by
  cases pool with
  | nil => exact absurd rfl h
  | cons x xs => exact ⟨_, rfl⟩

/-- C9: the Pareto front of a non-empty score list is non-empty with all
indices in range; consequently every step of a run (with a non-raising
hook and a positive capacity, which every non-negative `cap_pool` argument
produces) keeps the pool non-empty, and the final champion selection always
succeeds — the empty-sequence error branch is unreachable. -/
theorem pareto_front_nonempty_safe :
    (∀ points : List Score, points ≠ [] →
      pareto_front points ≠ [] ∧ ∀ i ∈ pareto_front points, i < points.length) ∧
    (∀ (G : GEPA) (call_fn : String → Example → ModelOut)
        (reflect_fn : String → Option Trace → List String) (seed : String),
      1 ≤ G.cap_pool →
      (∀ (pool : List Candidate), pool ≠ [] → ∀ g, ∃ pool',
        G.step call_fn reflect_fn okHook g pool = Except.ok pool' ∧ pool' ≠ []) ∧
      ∃ c, G.run call_fn reflect_fn okHook seed = Except.ok (some c)) := by
  constructor
  · intro points h
    exact ⟨pareto_front_ne_nil h, fun i hi => (mem_pareto_front_iff.mp hi).1⟩
  · intro G call_fn reflect_fn seed hcap
    constructor
    · intro pool hpool g
      exact step_okHook_ne_nil G call_fn reflect_fn g hpool hcap
    · obtain ⟨pool, hpool, hpoolne⟩ := runLoop_ne_nil G call_fn reflect_fn
        (List.range G.generations.toNat) [⟨seed, none, none⟩]
        (List.cons_ne_nil _ _) hcap
      have hrp : G.runPool call_fn reflect_fn okHook seed = Except.ok pool := hpool
      have hfin : G.scorePending call_fn pool ≠ [] := by
        rw [GEPA.scorePending]
        intro hnil
        exact hpoolne (List.map_eq_nil_iff.mp hnil)
      obtain ⟨c, hc⟩ := champion_isSome hfin
      refine ⟨c, ?_⟩
      unfold GEPA.run
      rw [hrp]
      exact congrArg Except.ok hc

/-- The Pareto front of a single score is that score's index. -/
lemma pareto_front_singleton (s : Score) : pareto_front [s] = [0] := by
  simp only [pareto_front, List.length_singleton]
  rw [show List.range 1 = [0] from rfl]
  simp

/-- `_dedupe_and_cap` leaves a singleton pool unchanged when the cap is ≥ 1. -/
lemma dedupeAndCap_singleton {cap : Int} (hcap : 1 ≤ cap) (c : Candidate) :
    dedupeAndCap cap [c] = [c] := by
  have h1 : pyDedup [c] = [c] := by simp [pyDedup, dedupAux]
  have hslice : pySlice [c] cap = [c] := by
    simp only [pySlice, if_pos (by omega : (0:Int) ≤ cap)]
    apply List.take_of_length_le
    simp
    omega
  simp only [dedupeAndCap, h1, List.filter_singleton]
  cases hb : c.score.isSome
  · simp only [hb, Bool.not_false, if_neg Bool.false_ne_true, if_pos rfl,
      List.nil_append]
    exact hslice
  · simp only [hb, Bool.not_true, if_pos rfl, if_neg Bool.false_ne_true,
      List.append_nil]
    exact hslice

/-- Scoring the seed-only pool attaches the seed's score and trace. -/
lemma scorePending_seed (G : GEPA) (call_fn : String → Example → ModelOut)
    (seed : String) :
    G.scorePending call_fn [⟨seed, none, none⟩] =
      [⟨seed, some (G.scorePrompt call_fn seed).1,
        some (G.scorePrompt call_fn seed).2⟩] := by
  simp [GEPA.scorePending]

/-- The parents of a seed-only pool are the scored seed alone. -/
lemma stepParents_seed (G : GEPA) (call_fn : String → Example → ModelOut)
    (seed : String) :
    stepParents G call_fn [⟨seed, none, none⟩] =
      [⟨seed, some (G.scorePrompt call_fn seed).1,
        some (G.scorePrompt call_fn seed).2⟩] := by
  simp only [stepParents, scorePending_seed, List.map_cons, List.map_nil,
    pareto_front_singleton]
  simp [List.filterMap_cons]

/-- C8: with `generations = 1` and `children = 0`, the pool stays the
single seed candidate for the whole run (so `reflect_fn` is never
consulted: any two reflection functions give identical runs), and the
champion is the seed prompt with the seed's score attached. -/
theorem degenerate_run (ev : List Example) (pop : Int)
    (call_fn : String → Example → ModelOut)
    (reflect_fn reflect_fn2 : String → Option Trace → List String)
    (seed : String) :
    (GEPA.init ev pop 0 1 none).runPool call_fn reflect_fn okHook seed =
      Except.ok [⟨seed, some ((GEPA.init ev pop 0 1 none).scorePrompt call_fn seed).1,
        some ((GEPA.init ev pop 0 1 none).scorePrompt call_fn seed).2⟩] ∧
    (GEPA.init ev pop 0 1 none).run call_fn reflect_fn okHook seed =
      Except.ok (some ⟨seed, some ((GEPA.init ev pop 0 1 none).scorePrompt call_fn seed).1,
        some ((GEPA.init ev pop 0 1 none).scorePrompt call_fn seed).2⟩) ∧
    (GEPA.init ev pop 0 1 none).run call_fn reflect_fn okHook seed =
      (GEPA.init ev pop 0 1 none).run call_fn reflect_fn2 okHook seed := by
  set G := GEPA.init ev pop 0 1 none with hG
  set c : Candidate := ⟨seed, some (G.scorePrompt call_fn seed).1,
    some (G.scorePrompt call_fn seed).2⟩ with hc
  have hgen : G.generations = 1 := by simp [hG, GEPA.init]
  have hch : G.children = 0 := by simp [hG, GEPA.init]
  have hcap : 1 ≤ G.cap_pool := by
    simp only [hG, GEPA.init]
    have := le_max_left (1:Int) pop
    omega
  have hstep : ∀ rf, G.step call_fn rf okHook 0 [⟨seed, none, none⟩] =
      Except.ok [c] := by
    intro rf
    simp only [GEPA.step, okHook]
    rw [if_neg (by rw [hgen, hch]; omega)]
    rw [stepParents_seed]
    rw [← hc]
    rw [dedupeAndCap_singleton hcap]
  have hrunPool : ∀ rf, G.runPool call_fn rf okHook seed = Except.ok [c] := by
    intro rf
    rw [GEPA.runPool, hgen]
    rw [show (List.range (1:Int).toNat) = [0] from rfl]
    rw [List.foldlM_cons, hstep rf]
    rfl
  have hsp : G.scorePending call_fn [c] = [c] := by
    rw [hc]
    simp [GEPA.scorePending]
  have hrun : ∀ rf, G.run call_fn rf okHook seed = Except.ok (some c) := by
    intro rf
    unfold GEPA.run
    rw [hrunPool rf]
    exact congrArg Except.ok (by rw [hsp]; rfl)
  exact ⟨hrunPool reflect_fn, hrun reflect_fn,
    (hrun reflect_fn).trans (hrun reflect_fn2).symm⟩

/-- Witness for C8: two different reflection functions give the same run
on a concrete degenerate configuration. -/
theorem degenerate_run_witness :
    (GEPA.init [ex1] 8 0 1 none).run call1 reflect0 okHook "s" =
      (GEPA.init [ex1] 8 0 1 none).run call1 (fun x y => ["X"]) okHook "s" :=
  (degenerate_run [ex1] 8 call1 reflect0 (fun x y => ["X"]) "s").2.2

/-- Witness for C9 at the end-to-end scenario's configuration. -/
theorem pareto_front_nonempty_safe_witness :
    (pareto_front [d0] ≠ [] ∧ ∀ i ∈ pareto_front [d0], i < [d0].length) ∧
    ∃ c, (GEPA.init [ex1] 8 2 2 none).run call1 reflect0 okHook
        "Answer exactly." = Except.ok (some c) :=
  ⟨pareto_front_nonempty_safe.1 [d0] (by decide),
   (pareto_front_nonempty_safe.2 (GEPA.init [ex1] 8 2 2 none) call1 reflect0
      "Answer exactly." (by decide)).2⟩

end TheraLoop
